import Mathlib

/-!
Verification development for the vk-mem pool wrapper (`src/pool.rs`) and the
virtual-block subsystem its tests exercise.

The wrappers in `src/pool.rs` are thin shims over an external allocation
engine reached through a C interface.  We embed them shallowly: every engine
call is modelled by passing the engine's observable behaviour (its returned
result code, the values it writes into the zero-initialised output slots) as
an explicit oracle argument, and each wrapper becomes a pure Lean function of
the caller's arguments and that oracle.  Raw engine handles are modelled as
`Option Nat`, with `none` standing for the null pointer sentinel.

The virtual-block allocator itself is not part of the wrapper sources (only
its tests are), so it is modelled from the specification: a fixed-capacity
address space, an ordered free-range list with first-fit carving and
adjacent-neighbour merging, and a record store keyed by fresh handles.
-/

/- ## Engine result codes -/

/-- Vulkan result code for success, as an integer code. -/
def VK_SUCCESS : Int := 0

/-- Vulkan result code VK_ERROR_OUT_OF_DEVICE_MEMORY. -/
def VK_ERROR_OUT_OF_DEVICE_MEMORY : Int := -2

/-- Vulkan result code VK_ERROR_FEATURE_NOT_PRESENT. -/
def VK_ERROR_FEATURE_NOT_PRESENT : Int := -8

/-- Vulkan result code VK_ERROR_VALIDATION_FAILED_EXT. -/
def VK_ERROR_VALIDATION_FAILED_EXT : Int := -1000011001

/-- Embeds the `.result()` conversion applied to a raw engine result code in
`src/pool.rs`: the success code becomes `Ok(())`, every other code is
returned unchanged as the error payload. -/
def vkResultToResult (code : Int) : Except Int Unit :=
  if code = VK_SUCCESS then Except.ok () else Except.error code

/- ## Allocator and pool handles (`src/pool.rs`) -/

/-- Embeds `Allocator`: the wrapper around the engine's allocator object.
Only the opaque `internal` engine handle is relevant to the wrapper code. -/
structure Allocator where
  internal : Nat
deriving DecidableEq

/-- Embeds `AllocatorPool` from `src/pool.rs`: a reference to the allocator
plus the raw pool handle; `pool = none` models the null `VmaPool` handle. -/
structure AllocatorPool where
  allocator : Allocator
  pool : Option Nat
deriving DecidableEq

/-- Embeds `Allocator::default_pool` from `src/pool.rs`: builds an
`AllocatorPool` whose raw pool handle is null. -/
def Allocator.default_pool (a : Allocator) : AllocatorPool :=
  { allocator := a, pool := none }

/-- Embeds the `Alloc` trait impl `pool()` for `Allocator` from
`src/pool.rs`: the root allocator always reports the null pool handle. -/
def Allocator.poolMethod (_ : Allocator) : Option Nat := none

/-- Embeds the `Alloc` trait impl `pool()` for `AllocatorPool` from
`src/pool.rs`: a pool reports its own stored handle. -/
def AllocatorPool.poolMethod (p : AllocatorPool) : Option Nat := p.pool

/-- Embeds `AllocatorPool::set_name` from `src/pool.rs`.  The observable
effect is the engine call performed: the function returns `none` when the
pool handle is null (the early return happens before any engine call), and
otherwise `some (allocator handle, pool handle, name)` describing the
`vmaSetPoolName` call made. -/
def AllocatorPool.set_name (p : AllocatorPool) (name : Option String) :
    Option (Nat × Nat × Option String) :=
  match p.pool with
  | none => none
  | some h => some (p.allocator.internal, h, name)

/-- Embeds `AllocatorPool::name` from `src/pool.rs`: returns `None` when the
pool handle is null; otherwise the engine's answer (`engineName`, where
`none` models the null string pointer) is returned as is. -/
def AllocatorPool.name (p : AllocatorPool) (engineName : Option String) :
    Option String :=
  match p.pool with
  | none => none
  | some _ => engineName

/- ## Pool statistics (`src/pool.rs`) -/

/-- Modelled from the spec: the statistics structure filled in by the engine,
with at minimum block count, allocation count, allocation bytes and unused
bytes (the engine struct itself is outside the wrapper sources). -/
structure VmaStatistics where
  blockCount : Nat
  allocationCount : Nat
  allocationBytes : Nat
  unusedBytes : Nat
deriving DecidableEq

/-- Modelled from the spec: the detailed statistics structure filled in by
the engine; it embeds the basic statistics (the engine struct itself is
outside the wrapper sources). -/
structure VmaDetailedStatistics where
  statistics : VmaStatistics
  unusedRangeCount : Nat
deriving DecidableEq

/-- Embeds `AllocatorPool::get_statistics` from `src/pool.rs`: the wrapper
zero-initialises an output struct, lets the void engine call
`vmaGetPoolStatistics` fill it (modelled by the oracle `engineFill`), and
unconditionally wraps the result in `Ok`. -/
def AllocatorPool.get_statistics (_ : AllocatorPool) (engineFill : VmaStatistics) :
    Except Int VmaStatistics :=
  Except.ok engineFill

/-- Embeds `AllocatorPool::calculate_statistics` from `src/pool.rs`: same
shape as `get_statistics`, delegating to the void engine call
`vmaCalculatePoolStatistics` and unconditionally wrapping in `Ok`. -/
def AllocatorPool.calculate_statistics (_ : AllocatorPool)
    (engineFill : VmaDetailedStatistics) : Except Int VmaDetailedStatistics :=
  Except.ok engineFill

/-- Embeds `AllocatorPool::check_corruption` from `src/pool.rs`: delegates
to `vmaCheckPoolCorruption` (whose returned code is the oracle `engineCode`)
and converts the code through `.result()`. -/
def AllocatorPool.check_corruption (_ : AllocatorPool) (engineCode : Int) :
    Except Int Unit :=
  vkResultToResult engineCode

/- ## The `Alloc` trait allocation family (`src/pool.rs`) -/

/-- Embeds the engine-facing `VmaAllocationCreateInfo` that each `Alloc`
method builds from the caller's create-info before delegating; the `pool`
field is the one each method overwrites with the receiver's handle. -/
structure VmaAllocationCreateInfo where
  flags : Nat
  usage : Nat
  requiredFlags : Nat
  preferredFlags : Nat
  memoryTypeBits : Nat
  pool : Option Nat
  pUserData : Nat
  priority : Nat
deriving DecidableEq

/-- Embeds `Alloc::find_memory_type_index` from `src/pool.rs` up to its
engine call: the pair of arguments derived from caller input that is passed
to `vmaFindMemoryTypeIndex` (memory type bits unchanged, create-info with
its `pool` field overwritten by the receiver's pool handle). -/
def Alloc.find_memory_type_index_call (selfPool : Option Nat)
    (memory_type_bits : Nat) (allocation_info : VmaAllocationCreateInfo) :
    Nat × VmaAllocationCreateInfo :=
  (memory_type_bits, { allocation_info with pool := selfPool })

/-- Embeds `Alloc::find_memory_type_index_for_buffer_info` from
`src/pool.rs` up to its engine call (buffer info modelled opaquely). -/
def Alloc.find_memory_type_index_for_buffer_info_call (selfPool : Option Nat)
    (buffer_info : Nat) (allocation_info : VmaAllocationCreateInfo) :
    Nat × VmaAllocationCreateInfo :=
  (buffer_info, { allocation_info with pool := selfPool })

/-- Embeds `Alloc::find_memory_type_index_for_image_info` from `src/pool.rs`
up to its engine call (image info modelled opaquely). -/
def Alloc.find_memory_type_index_for_image_info_call (selfPool : Option Nat)
    (image_info : Nat) (allocation_info : VmaAllocationCreateInfo) :
    Nat × VmaAllocationCreateInfo :=
  (image_info, { allocation_info with pool := selfPool })

/-- Embeds `Alloc::allocate_memory` from `src/pool.rs` up to its engine
call (memory requirements modelled opaquely). -/
def Alloc.allocate_memory_call (selfPool : Option Nat)
    (memory_requirements : Nat) (create_info : VmaAllocationCreateInfo) :
    Nat × VmaAllocationCreateInfo :=
  (memory_requirements, { create_info with pool := selfPool })

/-- Embeds `Alloc::allocate_memory_pages` from `src/pool.rs` up to its
engine call: requirements and allocation count pass through unchanged. -/
def Alloc.allocate_memory_pages_call (selfPool : Option Nat)
    (memory_requirements : Nat) (create_info : VmaAllocationCreateInfo)
    (allocation_count : Nat) : Nat × VmaAllocationCreateInfo × Nat :=
  (memory_requirements, { create_info with pool := selfPool }, allocation_count)

/-- Embeds `Alloc::allocate_memory_for_buffer` from `src/pool.rs` up to its
engine call (the buffer handle modelled opaquely). -/
def Alloc.allocate_memory_for_buffer_call (selfPool : Option Nat)
    (buffer : Nat) (create_info : VmaAllocationCreateInfo) :
    Nat × VmaAllocationCreateInfo :=
  (buffer, { create_info with pool := selfPool })

/-- Embeds `Alloc::allocate_memory_for_image` from `src/pool.rs` up to its
engine call (the image handle modelled opaquely). -/
def Alloc.allocate_memory_for_image_call (selfPool : Option Nat)
    (image : Nat) (create_info : VmaAllocationCreateInfo) :
    Nat × VmaAllocationCreateInfo :=
  (image, { create_info with pool := selfPool })

/-- Embeds `Alloc::create_buffer` from `src/pool.rs` up to its engine call
(buffer create-info modelled opaquely). -/
def Alloc.create_buffer_call (selfPool : Option Nat)
    (buffer_info : Nat) (create_info : VmaAllocationCreateInfo) :
    Nat × VmaAllocationCreateInfo :=
  (buffer_info, { create_info with pool := selfPool })

/-- Embeds `Alloc::create_buffer_with_alignment` from `src/pool.rs` up to
its engine call: the minimum alignment passes through unchanged. -/
def Alloc.create_buffer_with_alignment_call (selfPool : Option Nat)
    (buffer_info : Nat) (create_info : VmaAllocationCreateInfo)
    (min_alignment : Nat) : Nat × VmaAllocationCreateInfo × Nat :=
  (buffer_info, { create_info with pool := selfPool }, min_alignment)

/-- Embeds `Alloc::create_image` from `src/pool.rs` up to its engine call
(image create-info modelled opaquely). -/
def Alloc.create_image_call (selfPool : Option Nat)
    (image_info : Nat) (create_info : VmaAllocationCreateInfo) :
    Nat × VmaAllocationCreateInfo :=
  (image_info, { create_info with pool := selfPool })

/-- Embeds the result handling of `Alloc::create_buffer` from `src/pool.rs`:
the engine call `vmaCreateBuffer` returns `engineCode` and writes the buffer
and allocation handles into the zeroed outputs; the wrapper applies
`.result()?` to the code, so a failure code is returned unchanged and only
success yields the outputs. -/
def Alloc.create_buffer_result (engineCode : Int)
    (engineBuffer engineAllocation : Nat) : Except Int (Nat × Nat) :=
  match vkResultToResult engineCode with
  | Except.error e => Except.error e
  | Except.ok _ => Except.ok (engineBuffer, engineAllocation)

/-- Embeds the result handling of `Alloc::create_image` from `src/pool.rs`:
the engine call `vmaCreateImage` returns `engineCode`, but the wrapper never
inspects it (there is no `.result()?` on this call, unlike every sibling
method) and unconditionally returns `Ok` with the output slots. -/
def Alloc.create_image_result (engineCode : Int)
    (engineImage engineAllocation : Nat) : Except Int (Nat × Nat) :=
  Except.ok (engineImage, engineAllocation)

/- ## Virtual blocks, modelled from the spec -/

/-- Modelled from the spec: an allocation record of the virtual block's
record store, mapping a handle to offset, size, alignment and the
caller-supplied opaque user data (the virtual-block implementation is not
part of the wrapper sources). -/
structure AllocRecord where
  handle : Nat
  offset : Nat
  size : Nat
  alignment : Nat
  user_data : Nat
deriving DecidableEq

/-- Modelled from the spec: a virtual block is a fixed capacity, an ordered
list of non-overlapping free `(offset, length)` ranges, the record store of
live allocations, and a fresh-handle counter. -/
structure VirtualBlock where
  capacity : Nat
  free_ranges : List (Nat × Nat)
  allocations : List AllocRecord
  next_handle : Nat
deriving DecidableEq

/-- Modelled from the spec: the error taxonomy of the virtual block
operations. -/
inductive VbError where
  | OutOfSpace
  | UnknownHandle
  | InvalidConfiguration
deriving DecidableEq

/-- Modelled from the spec: the caller-side create info for a virtual
allocation request (size, alignment, opaque user data). -/
structure VirtualAllocationCreateInfo where
  size : Nat
  alignment : Nat
  user_data : Nat
deriving DecidableEq

/-- Modelled from the spec: the info returned by a `get_info` query. -/
structure VirtualAllocationInfo where
  offset : Nat
  size : Nat
  user_data : Nat
deriving DecidableEq

/-- Modelled from the spec: round `off` up to the next multiple of
`alignment`, where alignment `0` means no constraint. -/
def alignUp (off alignment : Nat) : Nat :=
  if alignment = 0 then off else (off + alignment - 1) / alignment * alignment

/-- Modelled from the spec: first-fit scan of the free ranges (kept sorted
by offset).  The first range that can fit `size` bytes once its start is
rounded up for `alignment` is split into up to two positive remainders (the
alignment gap below the placement and the leftover above it). -/
def carve (size alignment : Nat) : List (Nat × Nat) → Option (Nat × List (Nat × Nat))
  | [] => none
  | r :: rs =>
    let start := alignUp r.1 alignment
    if start + size ≤ r.1 + r.2 then
      some (start,
        ((if r.1 < start then [(r.1, start - r.1)] else []) ++
          (if start + size < r.1 + r.2 then
            [(start + size, r.1 + r.2 - (start + size))] else [])) ++ rs)
    else
      match carve size alignment rs with
      | none => none
      | some (off, rs2) => some (off, r :: rs2)

/-- Modelled from the spec: reinsert a released range into the sorted free
list, merging with an immediately adjacent predecessor and/or successor. -/
def insertFree : Nat → Nat → List (Nat × Nat) → List (Nat × Nat)
  | off, len, [] => [(off, len)]
  | off, len, r :: rs =>
    if off + len < r.1 then (off, len) :: r :: rs
    else if off + len = r.1 then (off, len + r.2) :: rs
    else if r.1 + r.2 = off then insertFree r.1 (r.2 + len) rs
    else r :: insertFree off len rs

/-- Modelled from the spec: create a virtual block of the given capacity; a
zero capacity is an invalid configuration rejected up front. -/
def VirtualBlock.new (capacity : Nat) : Except VbError VirtualBlock :=
  if capacity = 0 then Except.error VbError.InvalidConfiguration
  else Except.ok
    { capacity := capacity
      free_ranges := [(0, capacity)]
      allocations := []
      next_handle := 0 }

/-- Modelled from the spec: `allocate` composes the first-fit carve with a
record-store insert under a fresh handle, returning the new state together
with `(handle, offset)`; a zero size is an invalid configuration and an
unsatisfiable request fails with `OutOfSpace`, both leaving the state
untouched. -/
def VirtualBlock.allocate (b : VirtualBlock) (info : VirtualAllocationCreateInfo) :
    VirtualBlock × Except VbError (Nat × Nat) :=
  if info.size = 0 then (b, Except.error VbError.InvalidConfiguration)
  else
    match carve info.size info.alignment b.free_ranges with
    | none => (b, Except.error VbError.OutOfSpace)
    | some (off, fr) =>
      ({ capacity := b.capacity
         free_ranges := fr
         allocations :=
           { handle := b.next_handle
             offset := off
             size := info.size
             alignment := info.alignment
             user_data := info.user_data } :: b.allocations
         next_handle := b.next_handle + 1 },
        Except.ok (b.next_handle, off))

/-- Modelled from the spec: `free` removes the record of the handle and
releases its range back into the free list (merging neighbours); an unknown
handle fails with `UnknownHandle` and leaves the state untouched. -/
def VirtualBlock.free (b : VirtualBlock) (h : Nat) :
    VirtualBlock × Except VbError Unit :=
  match b.allocations.find? (fun q => q.handle == h) with
  | none => (b, Except.error VbError.UnknownHandle)
  | some rec =>
    ({ b with
        allocations := b.allocations.eraseP (fun q => q.handle == h)
        free_ranges := insertFree rec.offset rec.size b.free_ranges },
      Except.ok ())

/-- Modelled from the spec: `clear` drains every record and resets the free
list to the single range covering the whole block. -/
def VirtualBlock.clear (b : VirtualBlock) : VirtualBlock :=
  { b with free_ranges := [(0, b.capacity)], allocations := [] }

/-- Modelled from the spec: `get_info` is a pure read of the record store. -/
def VirtualBlock.get_info (b : VirtualBlock) (h : Nat) :
    Except VbError VirtualAllocationInfo :=
  match b.allocations.find? (fun q => q.handle == h) with
  | none => Except.error VbError.UnknownHandle
  | some rec => Except.ok { offset := rec.offset, size := rec.size, user_data := rec.user_data }

/-- Modelled from the spec: the outcome of destroying a virtual block. -/
inductive DestroyResult where
  | destroyed
  | leakDiagnostic
deriving DecidableEq

/-- Modelled from the spec: destroying a block with outstanding allocations
is a reportable misuse (the engine fires an assertion) rather than a silent
success; with an empty record store destruction is clean. -/
def VirtualBlock.destroy (b : VirtualBlock) : DestroyResult :=
  if b.allocations.isEmpty then DestroyResult.destroyed
  else DestroyResult.leakDiagnostic

/-- Modelled from the spec: the states reachable through the virtual-block
lifecycle, starting from a successful creation and closed under `allocate`,
`free` (successful or failing) and `clear`. -/
inductive Reachable : VirtualBlock → Prop where
  | new (capacity : Nat) (b : VirtualBlock) :
      VirtualBlock.new capacity = Except.ok b → Reachable b
  | alloc (b : VirtualBlock) (info : VirtualAllocationCreateInfo) :
      Reachable b → Reachable (b.allocate info).1
  | freeStep (b : VirtualBlock) (h : Nat) :
      Reachable b → Reachable (b.free h).1
  | clearStep (b : VirtualBlock) :
      Reachable b → Reachable b.clear

/- ## Interval bookkeeping used by the invariants -/

/-- Two half-open intervals `[off, off+len)` are disjoint. -/
def ivDisj (a c : Nat × Nat) : Prop := a.1 + a.2 ≤ c.1 ∨ c.1 + c.2 ≤ a.1

/-- Membership of a point in a half-open interval. -/
def ivMem (x : Nat) (a : Nat × Nat) : Prop := a.1 ≤ x ∧ x < a.1 + a.2

/-- The sum of the lengths of a free-range list. -/
def sumLens (l : List (Nat × Nat)) : Nat := (l.map Prod.snd).sum

/-- The sum of the sizes of a record list. -/
def sumSizes (l : List AllocRecord) : Nat := (l.map AllocRecord.size).sum

/-- The intervals occupied by a block's live allocations. -/
def allocIvs (b : VirtualBlock) : List (Nat × Nat) :=
  b.allocations.map (fun r => (r.offset, r.size))

/-- All intervals tracked by a block: allocations followed by free ranges. -/
def ivs (b : VirtualBlock) : List (Nat × Nat) :=
  allocIvs b ++ b.free_ranges

/-- The internal invariant of a virtual block: positive capacity, the sum
law, pairwise disjointness of all tracked intervals, and positivity of all
tracked lengths. -/
structure VbInv (b : VirtualBlock) : Prop where
  cap_pos : 0 < b.capacity
  sum_eq : sumSizes b.allocations + sumLens b.free_ranges = b.capacity
  disj : (ivs b).Pairwise ivDisj
  pos : ∀ iv ∈ ivs b, 0 < iv.2

/- ## Concrete fixtures -/

/-- A sample allocator with a concrete engine handle. -/
def sampleAllocator : Allocator := { internal := 1 }

/-- A sample named pool with a concrete non-null engine handle. -/
def samplePool : AllocatorPool := { allocator := sampleAllocator, pool := some 2 }

/-- The 16 MiB virtual block produced by `VirtualBlock.new (16 * 1024 * 1024)`. -/
def vb16 : VirtualBlock :=
  { capacity := 16777216
    free_ranges := [(0, 16777216)]
    allocations := []
    next_handle := 0 }

/-- An 8 MiB, alignment-0 allocation request. -/
def info8M : VirtualAllocationCreateInfo :=
  { size := 8388608, alignment := 0, user_data := 0 }

/-- An 8 MiB request carrying a concrete opaque user-data payload. -/
def infoU : VirtualAllocationCreateInfo :=
  { size := 8388608, alignment := 0, user_data := 424242 }

/-- The state of `vb16` after allocating `infoU` (handle 0 at offset 0). -/
def vbU : VirtualBlock :=
  { capacity := 16777216
    free_ranges := [(8388608, 8388608)]
    allocations :=
      [{ handle := 0, offset := 0, size := 8388608, alignment := 0, user_data := 424242 }]
    next_handle := 1 }

/- ## Claims about the pool wrapper -/

/-- C1: every delegating operation must return an engine failure code
unchanged; `create_buffer` does (via `.result()?`), but `create_image`
never inspects the engine code and returns success even when the engine
call failed — the claim fails on `create_image`, witnessed at the engine
code VK_ERROR_OUT_OF_DEVICE_MEMORY. -/
theorem create_image_ignores_engine_failure :
    Alloc.create_image_result VK_ERROR_OUT_OF_DEVICE_MEMORY 7 9 = Except.ok (7, 9) ∧
    vkResultToResult VK_ERROR_OUT_OF_DEVICE_MEMORY =
      Except.error VK_ERROR_OUT_OF_DEVICE_MEMORY ∧
    Alloc.create_buffer_result VK_ERROR_OUT_OF_DEVICE_MEMORY 7 9 =
      Except.error VK_ERROR_OUT_OF_DEVICE_MEMORY := by
  refine ⟨rfl, ?_, ?_⟩ <;>
    simp [Alloc.create_buffer_result, vkResultToResult,
      VK_ERROR_OUT_OF_DEVICE_MEMORY, VK_SUCCESS]

/-- C6: `check_corruption` returns `Ok(())` exactly when the delegated
engine call reports success, and otherwise returns the engine's code
unchanged, with no local reinterpretation. -/
theorem check_corruption_propagates (p : AllocatorPool) (engineCode : Int) :
    (p.check_corruption engineCode = Except.ok () ↔ engineCode = VK_SUCCESS) ∧
    (engineCode ≠ VK_SUCCESS → p.check_corruption engineCode = Except.error engineCode) := by
  unfold AllocatorPool.check_corruption vkResultToResult
  constructor
  · constructor
    · intro h
      by_cases hc : engineCode = VK_SUCCESS
      · exact hc
      · simp [hc] at h
    · intro h
      simp [h]
  · intro h
    simp [h]

/-- Witness for C6: a feature-not-enabled code comes back unchanged. -/
theorem check_corruption_propagates_witness :
    samplePool.check_corruption VK_ERROR_FEATURE_NOT_PRESENT =
      Except.error VK_ERROR_FEATURE_NOT_PRESENT :=
  (check_corruption_propagates samplePool VK_ERROR_FEATURE_NOT_PRESENT).2 (by decide)

/-- C8: on the default pool (null internal handle), `set_name` performs no
engine call for any argument, and `name` returns `None` whatever the engine
would have answered — so prior `set_name` calls can never be observed. -/
theorem default_pool_set_name_noop_name_none (a : Allocator)
    (n engineName : Option String) :
    (a.default_pool).set_name n = none ∧ (a.default_pool).name engineName = none :=
  ⟨rfl, rfl⟩

/-- C9: `get_statistics` and `calculate_statistics` always return `Ok`
wrapping exactly the structure the engine filled in; no error path exists. -/
theorem pool_statistics_never_fail (p : AllocatorPool) (s : VmaStatistics)
    (d : VmaDetailedStatistics) :
    p.get_statistics s = Except.ok s ∧ p.calculate_statistics d = Except.ok d :=
  ⟨rfl, rfl⟩

/-- C10: every allocation-family method of the `Alloc` trait passes the
caller's create-info to the engine with only the `pool` field overwritten
by the receiver's own pool handle, keeps its other arguments unchanged, and
the receiver's pool handle is null for `Allocator` and the owned handle for
`AllocatorPool`. -/
theorem alloc_methods_override_pool (selfPool : Option Nat)
    (info : VmaAllocationCreateInfo) (x cnt mal : Nat)
    (a : Allocator) (p : AllocatorPool) :
    Allocator.poolMethod a = none ∧
    AllocatorPool.poolMethod p = p.pool ∧
    (Alloc.find_memory_type_index_call selfPool x info).2.pool = selfPool ∧
    { (Alloc.find_memory_type_index_call selfPool x info).2 with pool := info.pool } = info ∧
    (Alloc.find_memory_type_index_call selfPool x info).1 = x ∧
    (Alloc.find_memory_type_index_for_buffer_info_call selfPool x info).2.pool = selfPool ∧
    { (Alloc.find_memory_type_index_for_buffer_info_call selfPool x info).2 with
        pool := info.pool } = info ∧
    (Alloc.find_memory_type_index_for_buffer_info_call selfPool x info).1 = x ∧
    (Alloc.find_memory_type_index_for_image_info_call selfPool x info).2.pool = selfPool ∧
    { (Alloc.find_memory_type_index_for_image_info_call selfPool x info).2 with
        pool := info.pool } = info ∧
    (Alloc.find_memory_type_index_for_image_info_call selfPool x info).1 = x ∧
    (Alloc.allocate_memory_call selfPool x info).2.pool = selfPool ∧
    { (Alloc.allocate_memory_call selfPool x info).2 with pool := info.pool } = info ∧
    (Alloc.allocate_memory_call selfPool x info).1 = x ∧
    (Alloc.allocate_memory_pages_call selfPool x info cnt).2.1.pool = selfPool ∧
    { (Alloc.allocate_memory_pages_call selfPool x info cnt).2.1 with
        pool := info.pool } = info ∧
    (Alloc.allocate_memory_pages_call selfPool x info cnt).1 = x ∧
    (Alloc.allocate_memory_pages_call selfPool x info cnt).2.2 = cnt ∧
    (Alloc.allocate_memory_for_buffer_call selfPool x info).2.pool = selfPool ∧
    { (Alloc.allocate_memory_for_buffer_call selfPool x info).2 with
        pool := info.pool } = info ∧
    (Alloc.allocate_memory_for_buffer_call selfPool x info).1 = x ∧
    (Alloc.allocate_memory_for_image_call selfPool x info).2.pool = selfPool ∧
    { (Alloc.allocate_memory_for_image_call selfPool x info).2 with
        pool := info.pool } = info ∧
    (Alloc.allocate_memory_for_image_call selfPool x info).1 = x ∧
    (Alloc.create_buffer_call selfPool x info).2.pool = selfPool ∧
    { (Alloc.create_buffer_call selfPool x info).2 with pool := info.pool } = info ∧
    (Alloc.create_buffer_call selfPool x info).1 = x ∧
    (Alloc.create_buffer_with_alignment_call selfPool x info mal).2.1.pool = selfPool ∧
    { (Alloc.create_buffer_with_alignment_call selfPool x info mal).2.1 with
        pool := info.pool } = info ∧
    (Alloc.create_buffer_with_alignment_call selfPool x info mal).1 = x ∧
    (Alloc.create_buffer_with_alignment_call selfPool x info mal).2.2 = mal ∧
    (Alloc.create_image_call selfPool x info).2.pool = selfPool ∧
    { (Alloc.create_image_call selfPool x info).2 with pool := info.pool } = info ∧
    (Alloc.create_image_call selfPool x info).1 = x :=
  ⟨rfl, rfl, rfl, rfl, rfl, rfl, rfl, rfl, rfl, rfl, rfl, rfl, rfl, rfl, rfl,
    rfl, rfl, rfl, rfl, rfl, rfl, rfl, rfl, rfl, rfl, rfl, rfl, rfl, rfl, rfl,
    rfl, rfl, rfl, rfl⟩

/- ## Claims about the virtual block, part 1 -/

/-- C5: a successful `allocate` with user data `X` followed by `get_info`
on the returned handle yields exactly `X` (and the assigned offset and the
requested size), the allocator never interpreting the payload. -/
theorem virtual_block_user_data_roundtrip (b b2 : VirtualBlock)
    (info : VirtualAllocationCreateInfo) (h off : Nat)
    (halloc : b.allocate info = (b2, Except.ok (h, off))) :
    b2.get_info h =
      Except.ok { offset := off, size := info.size, user_data := info.user_data } := by
  unfold VirtualBlock.allocate at halloc
  by_cases hsz : info.size = 0
  · simp [hsz] at halloc
  · rw [if_neg hsz] at halloc
    cases hc : carve info.size info.alignment b.free_ranges with
    | none => rw [hc] at halloc; simp at halloc
    | some v =>
      obtain ⟨o, fr⟩ := v
      rw [hc] at halloc
      simp only [Prod.mk.injEq, Except.ok.injEq] at halloc
      obtain ⟨hb2, hh, hoff⟩ := halloc
      subst hb2
      subst hh
      subst hoff
      unfold VirtualBlock.get_info
      simp

/-- Witness for C5: the concrete round trip of user data 424242 through an
8 MiB allocation on the 16 MiB block. -/
theorem virtual_block_user_data_roundtrip_witness :
    vbU.get_info 0 = Except.ok { offset := 0, size := 8388608, user_data := 424242 } :=
  virtual_block_user_data_roundtrip vb16 vbU infoU 0 0 (by rfl)

/-- C7: destroying a virtual block that still holds live allocations is
reported as a leak diagnostic and is never the silent success outcome. -/
theorem virtual_block_destroy_reports_leak (b : VirtualBlock)
    (h : b.allocations ≠ []) :
    b.destroy = DestroyResult.leakDiagnostic ∧ b.destroy ≠ DestroyResult.destroyed := by
  have hfalse : b.allocations.isEmpty = false := by
    cases hb : b.allocations with
    | nil => exact absurd hb h
    | cons q qs => rfl
  unfold VirtualBlock.destroy
  rw [hfalse]
  exact ⟨rfl, by simp⟩

/-- Witness for C7: the block holding one live 8 MiB allocation reports the
leak diagnostic on destruction. -/
theorem virtual_block_destroy_reports_leak_witness :
    vbU.destroy = DestroyResult.leakDiagnostic ∧ vbU.destroy ≠ DestroyResult.destroyed :=
  virtual_block_destroy_reports_leak vbU (by decide)

/- ## Basic lemmas about sums, intervals and alignment -/

/-- Sum of lengths distributes over cons. -/
theorem sumLens_cons (x : Nat × Nat) (l : List (Nat × Nat)) :
    sumLens (x :: l) = x.2 + sumLens l := by
  simp [sumLens]

/-- Sum of lengths distributes over append. -/
theorem sumLens_append (l1 l2 : List (Nat × Nat)) :
    sumLens (l1 ++ l2) = sumLens l1 + sumLens l2 := by
  simp [sumLens]

/-- Sum of sizes distributes over cons. -/
theorem sumSizes_cons (x : AllocRecord) (l : List AllocRecord) :
    sumSizes (x :: l) = x.size + sumSizes l := by
  simp [sumSizes]

/-- Sum of sizes distributes over append. -/
theorem sumSizes_append (l1 l2 : List AllocRecord) :
    sumSizes (l1 ++ l2) = sumSizes l1 + sumSizes l2 := by
  simp [sumSizes]

/-- A member's length is at most the sum of all lengths. -/
theorem mem_le_sumLens (l : List (Nat × Nat)) (q : Nat × Nat) (h : q ∈ l) :
    q.2 ≤ sumLens l := by
  induction l with
  | nil => cases h
  | cons r rs ih =>
    rw [sumLens_cons]
    rcases List.mem_cons.mp h with hq | hq
    · subst hq; omega
    · have := ih hq; omega

/-- Rounding up never moves the offset down. -/
theorem le_alignUp (off a : Nat) : off ≤ alignUp off a := by
  unfold alignUp
  by_cases h : a = 0
  · simp [h]
  · rw [if_neg h]
    have ha : 0 < a := Nat.pos_of_ne_zero h
    have hmlt : (off + a - 1) % a < a := Nat.mod_lt _ ha
    have key : a * ((off + a - 1) / a) + (off + a - 1) % a = off + a - 1 :=
      Nat.div_add_mod _ _
    rw [Nat.mul_comm] at key
    generalize ht : (off + a - 1) / a * a = t at key ⊢
    omega

/-- With no alignment constraint the placement is the range start itself. -/
theorem alignUp_zero (off : Nat) : alignUp off 0 = off := by
  simp [alignUp]

/-- Interval disjointness is symmetric. -/
theorem ivDisj_symm {a c : Nat × Nat} (h : ivDisj a c) : ivDisj c a := by
  unfold ivDisj at h ⊢; omega

/-- Disjoint intervals have no common point. -/
theorem disj_no_common {a c : Nat × Nat} {x : Nat}
    (h : ivDisj a c) (hxa : ivMem x a) (hxc : ivMem x c) : False := by
  unfold ivDisj at h; unfold ivMem at hxa hxc; omega

/-- Two positive-length intervals with no common point are disjoint. -/
theorem ivDisj_of_not_common (a c : Nat × Nat) (ha : 0 < a.2) (hc : 0 < c.2)
    (h : ∀ x, ivMem x a → ivMem x c → False) : ivDisj a c := by
  by_contra hnd
  unfold ivDisj at hnd
  push_neg at hnd
  exact h (max a.1 c.1) (by unfold ivMem; omega) (by unfold ivMem; omega)

/- ## Lemmas about `carve` -/

/-- A successful carve removes exactly `size` bytes from the free total. -/
theorem carve_sum (size alignment : Nat) :
    ∀ (l lr : List (Nat × Nat)) (off : Nat),
      carve size alignment l = some (off, lr) → sumLens lr + size = sumLens l := by
  intro l
  induction l with
  | nil => intro lr off h; simp [carve] at h
  | cons r rs ih =>
    intro lr off h
    unfold carve at h
    by_cases hfit : alignUp r.1 alignment + size ≤ r.1 + r.2
    · rw [if_pos hfit] at h
      have hle := le_alignUp r.1 alignment
      injection h with h
      injection h with hoff hlr
      subst hoff
      rw [← hlr]
      rw [sumLens_append, sumLens_cons]
      by_cases h1 : r.1 < alignUp r.1 alignment <;>
        by_cases h2 : alignUp r.1 alignment + size < r.1 + r.2 <;>
        simp [h1, h2, sumLens_cons, sumLens_append, sumLens] <;> omega
    · rw [if_neg hfit] at h
      cases hrec : carve size alignment rs with
      | none => rw [hrec] at h; cases h
      | some v =>
        obtain ⟨o2, rs2⟩ := v
        rw [hrec] at h
        injection h with h
        injection h with hoff hlr
        subst hoff
        rw [← hlr, sumLens_cons, sumLens_cons]
        have := ih rs2 o2 hrec
        omega

/-- A carve keeps every remaining free range positive. -/
theorem carve_pos (size alignment : Nat) :
    ∀ (l lr : List (Nat × Nat)) (off : Nat),
      (∀ q ∈ l, 0 < q.2) → carve size alignment l = some (off, lr) →
      ∀ q ∈ lr, 0 < q.2 := by
  intro l
  induction l with
  | nil => intro lr off _ h; simp [carve] at h
  | cons r rs ih =>
    intro lr off hpos h
    unfold carve at h
    by_cases hfit : alignUp r.1 alignment + size ≤ r.1 + r.2
    · rw [if_pos hfit] at h
      injection h with h
      injection h with hoff hlr
      intro q hq
      rw [← hlr] at hq
      rcases List.mem_append.mp hq with hq | hq
      · rcases List.mem_append.mp hq with hq | hq
        · by_cases h1 : r.1 < alignUp r.1 alignment
          · simp [h1] at hq; subst hq; simp; omega
          · simp [h1] at hq
        · by_cases h2 : alignUp r.1 alignment + size < r.1 + r.2
          · simp [h2] at hq; subst hq; simp; omega
          · simp [h2] at hq
      · exact hpos q (List.mem_cons_of_mem r hq)
    · rw [if_neg hfit] at h
      cases hrec : carve size alignment rs with
      | none => rw [hrec] at h; cases h
      | some v =>
        obtain ⟨o2, rs2⟩ := v
        rw [hrec] at h
        injection h with h
        injection h with hoff hlr
        intro q hq
        rw [← hlr] at hq
        rcases List.mem_cons.mp hq with hq | hq
        · subst hq; exact hpos _ (List.mem_cons_self _ _)
        · exact ih rs2 o2 (fun p hp => hpos p (List.mem_cons_of_mem r hp)) hrec q hq

/-- Every point of the carved-out placement or of a remaining free range was
a point of some original free range. -/
theorem carve_cover (size alignment : Nat) :
    ∀ (l lr : List (Nat × Nat)) (off : Nat),
      carve size alignment l = some (off, lr) →
      ∀ x, (ivMem x (off, size) ∨ ∃ q ∈ lr, ivMem x q) → ∃ p ∈ l, ivMem x p := by
  intro l
  induction l with
  | nil => intro lr off h; simp [carve] at h
  | cons r rs ih =>
    intro lr off h x hx
    unfold carve at h
    by_cases hfit : alignUp r.1 alignment + size ≤ r.1 + r.2
    · rw [if_pos hfit] at h
      have hle := le_alignUp r.1 alignment
      injection h with h
      injection h with hoff hlr
      subst hoff
      rcases hx with hx | ⟨q, hq, hxq⟩
      · exact ⟨r, List.mem_cons_self r rs, by unfold ivMem at hx ⊢; simp at hx ⊢; omega⟩
      · rw [← hlr] at hq
        rcases List.mem_append.mp hq with hq | hq
        · rcases List.mem_append.mp hq with hq | hq
          · by_cases h1 : r.1 < alignUp r.1 alignment
            · simp [h1] at hq
              subst hq
              exact ⟨r, List.mem_cons_self r rs, by
                unfold ivMem at hxq ⊢; simp at hxq ⊢; omega⟩
            · simp [h1] at hq
          · by_cases h2 : alignUp r.1 alignment + size < r.1 + r.2
            · simp [h2] at hq
              subst hq
              exact ⟨r, List.mem_cons_self r rs, by
                unfold ivMem at hxq ⊢; simp at hxq ⊢; omega⟩
            · simp [h2] at hq
        · exact ⟨q, List.mem_cons_of_mem r hq, hxq⟩
    · rw [if_neg hfit] at h
      cases hrec : carve size alignment rs with
      | none => rw [hrec] at h; cases h
      | some v =>
        obtain ⟨o2, rs2⟩ := v
        rw [hrec] at h
        injection h with h
        injection h with hoff hlr
        subst hoff
        rcases hx with hx | ⟨q, hq, hxq⟩
        · obtain ⟨p, hp, hxp⟩ := ih rs2 o2 hrec x (Or.inl hx)
          exact ⟨p, List.mem_cons_of_mem r hp, hxp⟩
        · rw [← hlr] at hq
          rcases List.mem_cons.mp hq with hq | hq
          · subst hq; exact ⟨q, List.mem_cons_self q rs, hxq⟩
          · obtain ⟨p, hp, hxp⟩ := ih rs2 o2 hrec x (Or.inr ⟨q, hq, hxq⟩)
            exact ⟨p, List.mem_cons_of_mem r hp, hxp⟩

/-- A sub-interval of `r` is disjoint from anything `r` is disjoint from. -/
theorem ivDisj_sub_left {a r q : Nat × Nat}
    (hs : r.1 ≤ a.1 ∧ a.1 + a.2 ≤ r.1 + r.2) (h : ivDisj r q) : ivDisj a q := by
  unfold ivDisj at h ⊢; omega

/-- Assemble pairwise disjointness of a placement, the split pieces of the
chosen range `r`, and the untouched tail. -/
theorem pairwise_assemble (a r : Nat × Nat) (P rs : List (Nat × Nat))
    (hsubP : ∀ q ∈ P, r.1 ≤ q.1 ∧ q.1 + q.2 ≤ r.1 + r.2)
    (haP : ∀ q ∈ P, ivDisj a q)
    (hsubA : r.1 ≤ a.1 ∧ a.1 + a.2 ≤ r.1 + r.2)
    (hpwP : P.Pairwise ivDisj)
    (hrdisj : ∀ q ∈ rs, ivDisj r q)
    (hpwrs : rs.Pairwise ivDisj) :
    (a :: (P ++ rs)).Pairwise ivDisj := by
  refine List.Pairwise.cons ?_ ?_
  · intro q hq
    rcases List.mem_append.mp hq with hq | hq
    · exact haP q hq
    · exact ivDisj_sub_left hsubA (hrdisj q hq)
  · rw [List.pairwise_append]
    refine ⟨hpwP, hpwrs, ?_⟩
    intro p hp q hq
    exact ivDisj_sub_left (hsubP p hp) (hrdisj q hq)

/-- A carve yields a placement and remainders that are pairwise disjoint
among themselves and with all the untouched free ranges. -/
theorem carve_disj (size alignment : Nat) (hsz : 0 < size) :
    ∀ (l lr : List (Nat × Nat)) (off : Nat),
      (∀ q ∈ l, 0 < q.2) → l.Pairwise ivDisj →
      carve size alignment l = some (off, lr) →
      ((off, size) :: lr).Pairwise ivDisj := by
  intro l
  induction l with
  | nil => intro lr off _ _ h; simp [carve] at h
  | cons r rs ih =>
    intro lr off hpos hpw h
    rw [List.pairwise_cons] at hpw
    obtain ⟨hrdisj, hpwrs⟩ := hpw
    have hposr : 0 < r.2 := hpos r (List.mem_cons_self r rs)
    have hposrs : ∀ q ∈ rs, 0 < q.2 := fun q hq => hpos q (List.mem_cons_of_mem r hq)
    unfold carve at h
    by_cases hfit : alignUp r.1 alignment + size ≤ r.1 + r.2
    · rw [if_pos hfit] at h
      have hle := le_alignUp r.1 alignment
      injection h with h
      injection h with hoff hlr
      subst hoff
      rw [← hlr]
      have hmemP : ∀ q ∈ ((if r.1 < alignUp r.1 alignment then
            [(r.1, alignUp r.1 alignment - r.1)] else []) ++
          (if alignUp r.1 alignment + size < r.1 + r.2 then
            [(alignUp r.1 alignment + size,
              r.1 + r.2 - (alignUp r.1 alignment + size))] else [])),
          (r.1 ≤ q.1 ∧ q.1 + q.2 ≤ r.1 + r.2) ∧
            ivDisj (alignUp r.1 alignment, size) q := by
        intro q hq
        rcases List.mem_append.mp hq with hq | hq
        · by_cases h1 : r.1 < alignUp r.1 alignment
          · simp [h1] at hq
            subst hq
            simp only [ivDisj]
            omega
          · simp [h1] at hq
        · by_cases h2 : alignUp r.1 alignment + size < r.1 + r.2
          · simp [h2] at hq
            subst hq
            simp only [ivDisj]
            omega
          · simp [h2] at hq
      have hpwP : ((if r.1 < alignUp r.1 alignment then
            [(r.1, alignUp r.1 alignment - r.1)] else []) ++
          (if alignUp r.1 alignment + size < r.1 + r.2 then
            [(alignUp r.1 alignment + size,
              r.1 + r.2 - (alignUp r.1 alignment + size))] else [])).Pairwise ivDisj := by
        by_cases h1 : r.1 < alignUp r.1 alignment <;>
          by_cases h2 : alignUp r.1 alignment + size < r.1 + r.2 <;>
          simp [h1, h2, ivDisj] <;> omega
      exact pairwise_assemble _ r _ rs (fun q hq => (hmemP q hq).1)
        (fun q hq => (hmemP q hq).2) ⟨hle, hfit⟩ hpwP hrdisj hpwrs
    · rw [if_neg hfit] at h
      cases hrec : carve size alignment rs with
      | none => rw [hrec] at h; cases h
      | some v =>
        obtain ⟨o2, rs2⟩ := v
        rw [hrec] at h
        injection h with h
        injection h with hoff hlr
        subst hoff
        rw [← hlr]
        have ihres := ih rs2 o2 hposrs hpwrs hrec
        rw [List.pairwise_cons] at ihres
        obtain ⟨hdisj2, hpwrs2⟩ := ihres
        have hrq2 : ∀ q ∈ rs2, ivDisj r q := by
          intro q hq
          refine ivDisj_of_not_common r q hposr
            (carve_pos size alignment rs rs2 o2 hposrs hrec q hq) ?_
          intro x hxr hxq
          obtain ⟨p, hp, hxp⟩ :=
            carve_cover size alignment rs rs2 o2 hrec x (Or.inr ⟨q, hq, hxq⟩)
          exact disj_no_common (hrdisj p hp) hxr hxp
        have hor : ivDisj (o2, size) r := by
          refine ivDisj_of_not_common _ r hsz hposr ?_
          intro x hx hxr
          obtain ⟨p, hp, hxp⟩ :=
            carve_cover size alignment rs rs2 o2 hrec x (Or.inl hx)
          exact disj_no_common (hrdisj p hp) hxr hxp
        refine List.Pairwise.cons ?_ (List.Pairwise.cons hrq2 hpwrs2)
        intro q hq
        rcases List.mem_cons.mp hq with rfl | hq
        · exact hor
        · exact hdisj2 q hq

/- ## Lemmas about `insertFree` -/

/-- Releasing a range adds exactly its length to the free total. -/
theorem insertFree_sum : ∀ (l : List (Nat × Nat)) (off len : Nat),
    sumLens (insertFree off len l) = len + sumLens l := by
  intro l
  induction l with
  | nil => intro off len; simp [insertFree, sumLens]
  | cons r rs ih =>
    intro off len
    unfold insertFree
    split_ifs with h1 h2 h3 <;> simp [sumLens_cons, ih] <;> omega

/-- Releasing a positive range keeps all free-range lengths positive. -/
theorem insertFree_pos : ∀ (l : List (Nat × Nat)) (off len : Nat),
    0 < len → (∀ q ∈ l, 0 < q.2) → ∀ q ∈ insertFree off len l, 0 < q.2 := by
  intro l
  induction l with
  | nil =>
    intro off len hlen _ q hq
    simp [insertFree] at hq
    subst hq
    exact hlen
  | cons r rs ih =>
    intro off len hlen hpos q hq
    unfold insertFree at hq
    split_ifs at hq with h1 h2 h3
    · rcases List.mem_cons.mp hq with rfl | hq
      · exact hlen
      · exact hpos q hq
    · rcases List.mem_cons.mp hq with rfl | hq
      · dsimp only; omega
      · exact hpos q (List.mem_cons_of_mem r hq)
    · exact ih r.1 (r.2 + len)
        (by have := hpos r (List.mem_cons_self r rs); omega)
        (fun p hp => hpos p (List.mem_cons_of_mem r hp)) q hq
    · rcases List.mem_cons.mp hq with rfl | hq
      · exact hpos _ (List.mem_cons_self _ _)
      · exact ih off len hlen (fun p hp => hpos p (List.mem_cons_of_mem r hp)) q hq

/-- Every point of the free list after a release was a point of the released
range or of some original free range. -/
theorem insertFree_cover : ∀ (l : List (Nat × Nat)) (off len : Nat),
    ∀ q ∈ insertFree off len l, ∀ x, ivMem x q →
      ivMem x (off, len) ∨ ∃ p ∈ l, ivMem x p := by
  intro l
  induction l with
  | nil =>
    intro off len q hq x hx
    simp [insertFree] at hq
    subst hq
    exact Or.inl hx
  | cons r rs ih =>
    intro off len q hq x hx
    unfold insertFree at hq
    split_ifs at hq with h1 h2 h3
    · rcases List.mem_cons.mp hq with rfl | hq
      · exact Or.inl hx
      · exact Or.inr ⟨q, hq, hx⟩
    · rcases List.mem_cons.mp hq with rfl | hq
      · unfold ivMem at hx
        dsimp only at hx
        by_cases hsplit : x < off + len
        · exact Or.inl (by unfold ivMem; dsimp only; omega)
        · exact Or.inr ⟨r, List.mem_cons_self r rs, by unfold ivMem; omega⟩
      · exact Or.inr ⟨q, List.mem_cons_of_mem r hq, hx⟩
    · rcases ih r.1 (r.2 + len) q hq x hx with hm | ⟨p, hp, hxp⟩
      · unfold ivMem at hm
        dsimp only at hm
        by_cases hsplit : x < r.1 + r.2
        · exact Or.inr ⟨r, List.mem_cons_self r rs, by unfold ivMem; omega⟩
        · exact Or.inl (by unfold ivMem; dsimp only; omega)
      · exact Or.inr ⟨p, List.mem_cons_of_mem r hp, hxp⟩
    · rcases List.mem_cons.mp hq with rfl | hq
      · exact Or.inr ⟨_, List.mem_cons_self _ _, hx⟩
      · rcases ih off len q hq x hx with hm | ⟨p, hp, hxp⟩
        · exact Or.inl hm
        · exact Or.inr ⟨p, List.mem_cons_of_mem r hp, hxp⟩

/-- Releasing a range disjoint from every free range keeps the free list
pairwise disjoint. -/
theorem insertFree_disj : ∀ (l : List (Nat × Nat)) (off len : Nat),
    0 < len → (∀ q ∈ l, 0 < q.2) → (∀ q ∈ l, ivDisj (off, len) q) →
    l.Pairwise ivDisj → (insertFree off len l).Pairwise ivDisj := by
  intro l
  induction l with
  | nil => intro off len _ _ _ _; simp [insertFree]
  | cons r rs ih =>
    intro off len hlen hpos hdisj hpw
    rw [List.pairwise_cons] at hpw
    obtain ⟨hrdisj, hpwrs⟩ := hpw
    have hposr : 0 < r.2 := hpos r (List.mem_cons_self r rs)
    have hdr : ivDisj (off, len) r := hdisj r (List.mem_cons_self r rs)
    have hposrs : ∀ q ∈ rs, 0 < q.2 := fun q hq => hpos q (List.mem_cons_of_mem r hq)
    have hdisjrs : ∀ q ∈ rs, ivDisj (off, len) q :=
      fun q hq => hdisj q (List.mem_cons_of_mem r hq)
    unfold insertFree
    split_ifs with h1 h2 h3
    · refine List.Pairwise.cons ?_ (List.Pairwise.cons hrdisj hpwrs)
      intro q hq
      rcases List.mem_cons.mp hq with rfl | hq
      · exact hdr
      · exact hdisjrs q hq
    · refine List.Pairwise.cons ?_ hpwrs
      intro q hq
      refine ivDisj_of_not_common _ q (by dsimp only; omega) (hposrs q hq) ?_
      intro x hxm hxq
      unfold ivMem at hxm
      dsimp only at hxm
      by_cases hsplit : x < off + len
      · exact disj_no_common (hdisjrs q hq) (by unfold ivMem; dsimp only; omega) hxq
      · exact disj_no_common (hrdisj q hq) (by unfold ivMem; omega) hxq
    · refine ih r.1 (r.2 + len) (by omega) hposrs ?_ hpwrs
      intro q hq
      refine ivDisj_of_not_common _ q (by dsimp only; omega) (hposrs q hq) ?_
      intro x hxm hxq
      unfold ivMem at hxm
      dsimp only at hxm
      by_cases hsplit : x < r.1 + r.2
      · exact disj_no_common (hrdisj q hq) (by unfold ivMem; omega) hxq
      · exact disj_no_common (hdisjrs q hq) (by unfold ivMem; dsimp only; omega) hxq
    · refine List.Pairwise.cons ?_ (ih off len hlen hposrs hdisjrs hpwrs)
      intro q hq
      refine ivDisj_of_not_common r q hposr
        (insertFree_pos rs off len hlen hposrs q hq) ?_
      intro x hxr hxq
      rcases insertFree_cover rs off len q hq x hxq with hm | ⟨p, hp, hxp⟩
      · exact disj_no_common hdr hm hxr
      · exact disj_no_common (hrdisj p hp) hxr hxp

/- ## Invariant preservation -/

/-- Decompose the pairwise disjointness of allocations around a removed
middle record. -/
theorem pairwise_middle_extract (A1 A2 F : List (Nat × Nat)) (m : Nat × Nat)
    (h : ((A1 ++ m :: A2) ++ F).Pairwise ivDisj) :
    (A1 ++ A2).Pairwise ivDisj ∧ F.Pairwise ivDisj ∧
    (∀ q ∈ F, ivDisj m q) ∧
    (∀ a ∈ A1 ++ A2, ivDisj m a) ∧
    (∀ a ∈ A1 ++ A2, ∀ q ∈ F, ivDisj a q) := by
  rw [List.pairwise_append] at h
  obtain ⟨hA, hF, hAF⟩ := h
  rw [List.pairwise_append] at hA
  obtain ⟨hA1, hmA2, hA12⟩ := hA
  rw [List.pairwise_cons] at hmA2
  obtain ⟨hmA2head, hA2⟩ := hmA2
  refine ⟨?_, hF, ?_, ?_, ?_⟩
  · rw [List.pairwise_append]
    exact ⟨hA1, hA2, fun a ha q hq => hA12 a ha q (List.mem_cons_of_mem m hq)⟩
  · exact fun q hq => hAF m (List.mem_append_right _ (List.mem_cons_self _ _)) q hq
  · intro a ha
    rcases List.mem_append.mp ha with ha | ha
    · exact ivDisj_symm (hA12 a ha m (List.mem_cons_self _ _))
    · exact hmA2head a ha
  · intro a ha q hq
    rcases List.mem_append.mp ha with ha | ha
    · exact hAF a (List.mem_append_left _ ha) q hq
    · exact hAF a (List.mem_append_right _ (List.mem_cons_of_mem m ha)) q hq

/-- A successful `find?` splits the list, and `eraseP` removes exactly the
found element. -/
theorem find_eraseP_decomp (p : AllocRecord → Bool) :
    ∀ (l : List AllocRecord) (a : AllocRecord), l.find? p = some a →
      ∃ l1 l2, l = l1 ++ a :: l2 ∧ l.eraseP p = l1 ++ l2 := by
  intro l
  induction l with
  | nil => intro a h; simp at h
  | cons x xs ih =>
    intro a h
    by_cases hp : p x
    · rw [List.find?_cons_of_pos _ hp] at h
      injection h with h
      subst h
      exact ⟨[], xs, by simp, by simp [List.eraseP_cons_of_pos hp]⟩
    · rw [List.find?_cons_of_neg _ hp] at h
      obtain ⟨l1, l2, heq, her⟩ := ih a h
      exact ⟨x :: l1, l2, by simp [heq], by simp [List.eraseP_cons_of_neg, hp, her]⟩

/-- A fresh block satisfies the invariant. -/
theorem vbinv_new (cap : Nat) (b : VirtualBlock)
    (h : VirtualBlock.new cap = Except.ok b) : VbInv b := by
  unfold VirtualBlock.new at h
  by_cases hc : cap = 0
  · rw [if_pos hc] at h; cases h
  · rw [if_neg hc] at h
    injection h with h
    subst h
    refine ⟨Nat.pos_of_ne_zero hc, ?_, ?_, ?_⟩
    · simp [sumSizes, sumLens]
    · simp [ivs, allocIvs]
    · intro iv hiv
      simp [ivs, allocIvs] at hiv
      subst hiv
      exact Nat.pos_of_ne_zero hc

/-- `clear` re-establishes the invariant. -/
theorem vbinv_clear (b : VirtualBlock) (h : VbInv b) : VbInv b.clear := by
  refine ⟨h.cap_pos, ?_, ?_, ?_⟩
  · simp [VirtualBlock.clear, sumSizes, sumLens]
  · simp [VirtualBlock.clear, ivs, allocIvs]
  · intro iv hiv
    simp [VirtualBlock.clear, ivs, allocIvs] at hiv
    subst hiv
    exact h.cap_pos

/-- The successful-allocation successor state satisfies the invariant. -/
theorem vbinv_allocate_aux (b : VirtualBlock) (info : VirtualAllocationCreateInfo)
    (off : Nat) (fr : List (Nat × Nat)) (hsz : info.size ≠ 0)
    (hc : carve info.size info.alignment b.free_ranges = some (off, fr))
    (h : VbInv b) :
    VbInv { capacity := b.capacity
            free_ranges := fr
            allocations :=
              { handle := b.next_handle
                offset := off
                size := info.size
                alignment := info.alignment
                user_data := info.user_data } :: b.allocations
            next_handle := b.next_handle + 1 } := by
  obtain ⟨cap_pos, sum_eq, disj, pos⟩ := h
  have hszpos : 0 < info.size := Nat.pos_of_ne_zero hsz
  have posA : ∀ q ∈ allocIvs b, 0 < q.2 :=
    fun q hq => pos q (List.mem_append_left _ hq)
  have posF : ∀ q ∈ b.free_ranges, 0 < q.2 :=
    fun q hq => pos q (List.mem_append_right _ hq)
  unfold ivs at disj
  rw [List.pairwise_append] at disj
  obtain ⟨pwA, pwF, crossAF⟩ := disj
  have hsum := carve_sum info.size info.alignment b.free_ranges fr off hc
  have hposfr := carve_pos info.size info.alignment b.free_ranges fr off posF hc
  have hcd := carve_disj info.size info.alignment hszpos b.free_ranges fr off posF pwF hc
  rw [List.pairwise_cons] at hcd
  obtain ⟨hnewfr, pwfr⟩ := hcd
  have hnewA : ∀ q ∈ allocIvs b, ivDisj (off, info.size) q := by
    intro q hq
    refine ivDisj_of_not_common _ q hszpos (posA q hq) ?_
    intro x hx hxq
    obtain ⟨p, hp, hxp⟩ :=
      carve_cover info.size info.alignment b.free_ranges fr off hc x (Or.inl hx)
    exact disj_no_common (crossAF q hq p hp) hxq hxp
  have hAfr : ∀ a ∈ allocIvs b, ∀ q ∈ fr, ivDisj a q := by
    intro a ha q hq
    refine ivDisj_of_not_common a q (posA a ha) (hposfr q hq) ?_
    intro x hxa hxq
    obtain ⟨p, hp, hxp⟩ :=
      carve_cover info.size info.alignment b.free_ranges fr off hc x (Or.inr ⟨q, hq, hxq⟩)
    exact disj_no_common (crossAF a ha p hp) hxa hxp
  refine ⟨cap_pos, ?_, ?_, ?_⟩
  · dsimp only
    rw [sumSizes_cons]
    dsimp only
    omega
  · unfold ivs allocIvs
    dsimp only
    simp only [List.map_cons, List.cons_append]
    refine List.Pairwise.cons ?_ ?_
    · intro q hq
      rcases List.mem_append.mp hq with hq | hq
      · exact hnewA q hq
      · exact hnewfr q hq
    · rw [List.pairwise_append]
      exact ⟨pwA, pwfr, hAfr⟩
  · intro iv hiv
    unfold ivs allocIvs at hiv
    dsimp only at hiv
    simp only [List.map_cons, List.cons_append] at hiv
    rcases List.mem_cons.mp hiv with rfl | hiv
    · exact hszpos
    · rcases List.mem_append.mp hiv with hiv | hiv
      · exact posA iv hiv
      · exact hposfr iv hiv

/-- `allocate` preserves the invariant. -/
theorem vbinv_allocate (b : VirtualBlock) (info : VirtualAllocationCreateInfo)
    (h : VbInv b) : VbInv (b.allocate info).1 := by
  unfold VirtualBlock.allocate
  by_cases hsz : info.size = 0
  · rw [if_pos hsz]; exact h
  · rw [if_neg hsz]
    cases hc : carve info.size info.alignment b.free_ranges with
    | none => exact h
    | some v =>
      obtain ⟨off, fr⟩ := v
      exact vbinv_allocate_aux b info off fr hsz hc h

/-- The successful-free successor state satisfies the invariant. -/
theorem vbinv_free_aux (b : VirtualBlock) (rec : AllocRecord)
    (l1 l2 : List AllocRecord) (heq : b.allocations = l1 ++ rec :: l2)
    (h : VbInv b) :
    VbInv { b with
        allocations := l1 ++ l2
        free_ranges := insertFree rec.offset rec.size b.free_ranges } := by
  obtain ⟨cap_pos, sum_eq, disj, pos⟩ := h
  have hrecmem : (rec.offset, rec.size) ∈ ivs b := by
    unfold ivs allocIvs
    refine List.mem_append_left _ ?_
    rw [heq]
    exact List.mem_map_of_mem _ (List.mem_append_right _ (List.mem_cons_self _ _))
  have hrecpos : 0 < rec.size := pos _ hrecmem
  have posF : ∀ q ∈ b.free_ranges, 0 < q.2 :=
    fun q hq => pos q (List.mem_append_right _ hq)
  unfold ivs allocIvs at disj
  rw [heq] at disj
  simp only [List.map_append, List.map_cons] at disj
  obtain ⟨pwA12, pwF, hmF, hmA, hAF⟩ := pairwise_middle_extract _ _ _ _ disj
  have posA12 : ∀ a ∈ List.map (fun r => (r.offset, r.size)) l1 ++
      List.map (fun r => (r.offset, r.size)) l2, 0 < a.2 := by
    intro a ha
    refine pos a ?_
    unfold ivs allocIvs
    rw [heq]
    simp only [List.map_append, List.map_cons]
    rcases List.mem_append.mp ha with ha | ha
    · exact List.mem_append_left _ (List.mem_append_left _ ha)
    · exact List.mem_append_left _ (List.mem_append_right _ (List.mem_cons_of_mem _ ha))
  have posF2 := insertFree_pos b.free_ranges rec.offset rec.size hrecpos posF
  refine ⟨cap_pos, ?_, ?_, ?_⟩
  · dsimp only
    rw [sumSizes_append, insertFree_sum]
    rw [heq, sumSizes_append, sumSizes_cons] at sum_eq
    omega
  · unfold ivs allocIvs
    dsimp only
    simp only [List.map_append]
    rw [List.pairwise_append]
    refine ⟨pwA12,
      insertFree_disj b.free_ranges rec.offset rec.size hrecpos posF hmF pwF, ?_⟩
    intro a ha q hq
    refine ivDisj_of_not_common a q (posA12 a ha) (posF2 q hq) ?_
    intro x hxa hxq
    rcases insertFree_cover b.free_ranges rec.offset rec.size q hq x hxq with
      hm | ⟨p, hp, hxp⟩
    · exact disj_no_common (hmA a ha) hm hxa
    · exact disj_no_common (hAF a ha p hp) hxa hxp
  · intro iv hiv
    unfold ivs allocIvs at hiv
    dsimp only at hiv
    simp only [List.map_append] at hiv
    rcases List.mem_append.mp hiv with hiv | hiv
    · exact posA12 iv hiv
    · exact posF2 iv hiv

/-- `free` preserves the invariant. -/
theorem vbinv_free (b : VirtualBlock) (hdl : Nat) (h : VbInv b) :
    VbInv (b.free hdl).1 := by
  unfold VirtualBlock.free
  cases hf : b.allocations.find? (fun q => q.handle == hdl) with
  | none => exact h
  | some rec =>
    obtain ⟨l1, l2, heq, her⟩ := find_eraseP_decomp _ b.allocations rec hf
    dsimp only
    rw [her]
    exact vbinv_free_aux b rec l1 l2 heq h

/-- Every reachable virtual-block state satisfies the invariant. -/
theorem vbinv_reachable {b : VirtualBlock} (h : Reachable b) : VbInv b := by
  induction h with
  | new cap b2 hb => exact vbinv_new cap b2 hb
  | alloc b2 info _ ih => exact vbinv_allocate b2 info ih
  | freeStep b2 hdl _ ih => exact vbinv_free b2 hdl ih
  | clearStep b2 _ ih => exact vbinv_clear b2 ih

/- ## Claims about the virtual block, part 2 -/

/-- C2: after every operation, the sum of the live allocation sizes plus
the sum of the free-range lengths equals the block's fixed capacity. -/
theorem virtual_block_sum_invariant (b : VirtualBlock) (h : Reachable b) :
    sumSizes b.allocations + sumLens b.free_ranges = b.capacity :=
  (vbinv_reachable h).sum_eq

/-- Witness for C2: the sum law after one 8 MiB allocation on the fresh
16 MiB block. -/
theorem virtual_block_sum_invariant_witness :
    sumSizes ((vb16.allocate info8M).1).allocations +
      sumLens ((vb16.allocate info8M).1).free_ranges =
      ((vb16.allocate info8M).1).capacity :=
  virtual_block_sum_invariant _
    (Reachable.alloc vb16 info8M (Reachable.new 16777216 vb16 (by rfl)))

/-- C3: in every reachable state no two live allocations' half-open
intervals overlap; in particular two successful 8 MiB allocations from the
fresh 16 MiB block return distinct offsets. -/
theorem virtual_block_allocations_disjoint :
    (∀ b : VirtualBlock, Reachable b → (allocIvs b).Pairwise ivDisj) ∧
    (∃ h0 o0 h1 o1 : Nat,
      (vb16.allocate info8M).2 = Except.ok (h0, o0) ∧
      ((vb16.allocate info8M).1.allocate info8M).2 = Except.ok (h1, o1) ∧
      o0 ≠ o1) := by
  constructor
  · intro b hb
    have hinv := vbinv_reachable hb
    have hd := hinv.disj
    unfold ivs at hd
    rw [List.pairwise_append] at hd
    exact hd.1
  · exact ⟨0, 0, 1, 8388608, by rfl, by rfl, by decide⟩

/-- Witness for C3: the allocation intervals after one allocation step on
the fresh 16 MiB block are pairwise disjoint. -/
theorem virtual_block_allocations_disjoint_witness :
    (allocIvs (vb16.allocate info8M).1).Pairwise ivDisj :=
  virtual_block_allocations_disjoint.1 _
    (Reachable.alloc vb16 info8M (Reachable.new 16777216 vb16 (by rfl)))

/-- No free range can fit a request strictly larger than all of them
(first-fit with no alignment constraint). -/
theorem carve_none_of_small (size : Nat) :
    ∀ l : List (Nat × Nat), (∀ q ∈ l, q.2 < size) → carve size 0 l = none := by
  intro l
  induction l with
  | nil => intro _; rfl
  | cons r rs ih =>
    intro h
    unfold carve
    rw [alignUp_zero]
    rw [if_neg (by have := h r (List.mem_cons_self r rs); omega)]
    rw [ih (fun q hq => h q (List.mem_cons_of_mem r hq))]

/-- C4: on every reachable block of capacity `C`, a request of size `C + 1`
with alignment 0 fails with `OutOfSpace` and leaves the state unchanged. -/
theorem virtual_block_oversize_allocate_fails (b : VirtualBlock) (u : Nat)
    (h : Reachable b) :
    b.allocate { size := b.capacity + 1, alignment := 0, user_data := u } =
      (b, Except.error VbError.OutOfSpace) := by
  have hinv := vbinv_reachable h
  unfold VirtualBlock.allocate
  dsimp only
  rw [if_neg (by omega : ¬ (b.capacity + 1 = 0))]
  have hnone : carve (b.capacity + 1) 0 b.free_ranges = none := by
    refine carve_none_of_small (b.capacity + 1) b.free_ranges ?_
    intro q hq
    have h1 := mem_le_sumLens b.free_ranges q hq
    have h2 := hinv.sum_eq
    omega
  rw [hnone]

/-- Witness for C4: requesting one byte more than the fresh 16 MiB block's
capacity fails with `OutOfSpace` without touching the block. -/
theorem virtual_block_oversize_allocate_fails_witness :
    vb16.allocate { size := vb16.capacity + 1, alignment := 0, user_data := 0 } =
      (vb16, Except.error VbError.OutOfSpace) :=
  virtual_block_oversize_allocate_fails vb16 0 (Reachable.new 16777216 vb16 (by rfl))
